import Mathlib

/-!
Shallow embedding of the discord-portal-bot source (src/index.js).

The repository is a Discord bot that provisions a private "portal"
(a category plus a fixed set of text channels) for every joining member
and tears it down when the member leaves.  The embedding models the
guild's channel cache as an explicit state, remote create/delete calls
as state transitions, and remote-call failures through an oracle that
says which delete calls succeed.  String operations of the JavaScript
source (split, trim, slice, replace, startsWith, endsWith) are modelled
structurally on the character lists underlying Lean strings so that all
definitions are executable by the kernel.
-/

/-- Permission flag bits used by the source (PermissionFlagsBits). -/
inductive Perm where
  | viewChannel
  | sendMessages
  | readMessageHistory
  | attachFiles
  | embedLinks
  | manageMessages
deriving DecidableEq, Repr

/-- One permission overwrite: a principal id with allowed and denied flags. -/
structure Overwrite where
  principal : String
  allow : List Perm
  deny : List Perm
deriving DecidableEq, Repr

/-- Channel types used by the source (ChannelType.GuildCategory / GuildText). -/
inductive ChanType where
  | category
  | text
deriving DecidableEq, Repr

/-- A channel of the guild channel cache. -/
structure Channel where
  id : Nat
  type : ChanType
  name : String
  parentId : Option Nat
  overwrites : List Overwrite
deriving DecidableEq, Repr

/-- A guild member: immutable snowflake id and mutable username. -/
structure Member where
  id : String
  username : String
deriving DecidableEq, Repr

/-- The environment configuration read at startup: STAFF_ROLE_ID (optional),
CATEGORY_PREFIX, CHANNEL_NAMES. -/
structure Config where
  staffRoleId : Option String
  categoryPrefix : String
  channelNames : String
deriving DecidableEq, Repr

/-- The guild as seen through the client cache: its id, the id of the
everyone role, the set of role ids, the channel cache, and a counter
producing fresh snowflakes for created channels. -/
structure GuildState where
  guildId : String
  everyoneId : String
  roles : List String
  channels : List Channel
  nextId : Nat
deriving DecidableEq, Repr

/-- Split a character list at a separator, as JavaScript `split` with a
one-character separator does (an empty input yields one empty field). -/
def splitOnChar (sep : Char) : List Char → List Char → List (List Char)
  | [], acc => [acc.reverse]
  | c :: rest, acc =>
    if c = sep then acc.reverse :: splitOnChar sep rest []
    else splitOnChar sep rest (c :: acc)

/-- JavaScript `String.prototype.split` with a one-character separator. -/
def jsSplit (sep : Char) (s : String) : List String :=
  (splitOnChar sep s.data []).map String.mk

/-- Whitespace recognised by the model of JavaScript `trim` (the ASCII
whitespace characters; the source only ever configures ASCII values). -/
def isJsWhitespace (c : Char) : Bool :=
  c = ' ' || c = '\t' || c = '\n' || c = '\r' || c = '\x0b' || c = '\x0c'

/-- JavaScript `String.prototype.trim`, modelled on ASCII whitespace. -/
def jsTrim (s : String) : String :=
  String.mk (((s.data.dropWhile isJsWhitespace).reverse.dropWhile isJsWhitespace).reverse)

/-- JavaScript `s.slice(-4)`: the last four characters (all of `s` when it
is shorter). -/
def last4 (s : String) : String :=
  String.mk (s.data.drop (s.data.length - 4))

/-- JavaScript `s.startsWith(p)`. -/
def strStartsWith (s p : String) : Bool :=
  p.data.isPrefixOf s.data

/-- JavaScript `s.endsWith(p)`. -/
def strEndsWith (s p : String) : Bool :=
  p.data.isSuffixOf s.data

/-- isValidSnowflake from the source: `/^[0-9]{17,20}$/.test(id)` on a
string. -/
def isValidSnowflake (id : String) : Bool :=
  17 ≤ id.data.length && id.data.length ≤ 20 && id.data.all Char.isDigit

/-- The character class kept by the sanitiser regex `[^a-z0-9-_]/gi`:
ASCII letters of either case, digits, dash and underscore. -/
def isSafeChar (c : Char) : Bool :=
  c.isAlphanum || c = '-' || c = '_'

/-- The sanitiser of categoryNameFor:
`member.user.username.replace(/[^a-z0-9-_]/gi, '').toLowerCase()`. -/
def sanitizeName (s : String) : String :=
  String.mk ((s.data.filter isSafeChar).map Char.toLower)

/-- The dash character separating the sanitised name from the id suffix. -/
def dash : String := "-"

/-- categoryNameFor from the source:
prefix ++ sanitised username ++ dash ++ last four characters of the id. -/
def categoryNameFor (cfg : Config) (m : Member) : String :=
  cfg.categoryPrefix ++ sanitizeName m.username ++ dash ++ last4 m.id

/-- The flags allowed to the member in overwritesFor. -/
def memberAllowPerms : List Perm :=
  [Perm.viewChannel, Perm.sendMessages, Perm.readMessageHistory,
   Perm.attachFiles, Perm.embedLinks]

/-- The flags allowed to the staff role in overwritesFor. -/
def staffAllowPerms : List Perm :=
  [Perm.viewChannel, Perm.sendMessages, Perm.readMessageHistory,
   Perm.manageMessages]

/-- overwritesFor from the primary source file: deny ViewChannel to the
everyone role, allow the member, and append a staff entry only when the
trimmed STAFF_ROLE_ID is a valid snowflake that exists in the guild role
cache. -/
def overwritesFor (cfg : Config) (g : GuildState) (m : Member) : List Overwrite :=
  let base := [ Overwrite.mk g.everyoneId [] [Perm.viewChannel],
                Overwrite.mk m.id memberAllowPerms [] ]
  let staffId := jsTrim (cfg.staffRoleId.getD (String.mk []))
  if isValidSnowflake staffId && g.roles.contains staffId then
    base ++ [Overwrite.mk staffId staffAllowPerms []]
  else
    base

namespace Variant2

/-- overwritesFor from the second source variant: the everyone deny entry
uses the guild id, and the staff entry is pushed whenever STAFF_ROLE_ID is
truthy (a configured non-empty string), with no snowflake validation and
no guild role lookup. -/
def overwritesFor (cfg : Config) (g : GuildState) (m : Member) : List Overwrite :=
  let ow := [ Overwrite.mk g.guildId [] [Perm.viewChannel],
              Overwrite.mk m.id memberAllowPerms [] ]
  match cfg.staffRoleId with
  | none => ow
  | some s => if s = String.mk [] then ow else ow ++ [Overwrite.mk s staffAllowPerms []]

end Variant2

/-- The channel-name list of ensurePortal:
`CHANNEL_NAMES.split(',').map(s => s.trim()).filter(Boolean)`. -/
def channelNamesOf (cfg : Config) : List String :=
  ((jsSplit ',' cfg.channelNames).map jsTrim).filter (fun s => !(s == String.mk []))

/-- The category search predicate of ensurePortal:
`ch.type === GuildCategory && ch.name === catName`. -/
def isCatMatch (catName : String) (ch : Channel) : Bool :=
  ch.type == ChanType.category && ch.name == catName

/-- The text-channel search predicate of ensurePortal:
`ch.type === GuildText && ch.parentId === category.id && ch.name === name`. -/
def isTextMatch (catId : Nat) (nm : String) (ch : Channel) : Bool :=
  ch.type == ChanType.text && ch.parentId == some catId && ch.name == nm

/-- guild.channels.create: appends a channel with a fresh id to the cache
and returns the new state together with the created channel id. -/
def createChannel (g : GuildState) (ty : ChanType) (nm : String)
    (parent : Option Nat) (ow : List Overwrite) : GuildState × Nat :=
  ({ g with channels := g.channels ++ [Channel.mk g.nextId ty nm parent ow],
            nextId := g.nextId + 1 }, g.nextId)

/-- category.permissionOverwrites.set: replaces the overwrite list of the
channel with the given id. -/
def setOverwrites (g : GuildState) (catId : Nat) (ow : List Overwrite) : GuildState :=
  { g with channels := g.channels.map fun ch =>
      if ch.id = catId then { ch with overwrites := ow } else ch }

/-- The per-name loop of ensurePortal: for each configured name, search the
current cache for a text channel of that name under the category and create
it when absent. -/
def ensureChannels (ow : List Overwrite) (catId : Nat) :
    List String → GuildState → GuildState
  | [], g => g
  | nm :: rest, g =>
    match g.channels.find? (isTextMatch catId nm) with
    | some _ => ensureChannels ow catId rest g
    | none => ensureChannels ow catId rest (createChannel g ChanType.text nm (some catId) ow).1

/-- The error message thrown by ensurePortal on an empty channel list. -/
def channelNamesEmptyMsg : String := "CHANNEL_NAMES is empty"

/-- ensurePortal from the source: compute the category name and the
overwrites, throw when the configured channel list is empty, create or
reuse the category (refreshing its permissions when reused), then ensure
each configured text channel exists under it.  Returns the new guild state
and the id of the category. -/
def ensurePortal (cfg : Config) (m : Member) (g : GuildState) :
    Except String (GuildState × Nat) :=
  let catName := categoryNameFor cfg m
  let names := channelNamesOf cfg
  if names.isEmpty then Except.error channelNamesEmptyMsg
  else
    let perms := overwritesFor cfg g m
    match g.channels.find? (isCatMatch catName) with
    | none =>
      let created := createChannel g ChanType.category catName none perms
      Except.ok (ensureChannels perms created.2 names created.1, created.2)
    | some cat =>
      let g1 := setOverwrites g cat.id perms
      Except.ok (ensureChannels perms cat.id names g1, cat.id)

/-- findMemberCategories from the source: categories whose name starts with
the configured prefix and whose overwrite cache has an entry for the member
id. -/
def findMemberCategories (cfg : Config) (g : GuildState) (m : Member) : List Channel :=
  g.channels.filter fun ch =>
    ch.type == ChanType.category && strStartsWith ch.name cfg.categoryPrefix &&
      ch.overwrites.any (fun ow => ow.principal == m.id)

/-- The fallback name-pattern search of deletePortal: categories whose name
ends with the dash followed by the last four characters of the member id
and starts with the configured prefix. -/
def guessCategories (cfg : Config) (g : GuildState) (m : Member) : List Channel :=
  g.channels.filter fun ch =>
    ch.type == ChanType.category &&
      strEndsWith ch.name (dash ++ last4 m.id) &&
      strStartsWith ch.name cfg.categoryPrefix

/-- The children snapshot taken by deletePortal:
`guild.channels.cache.filter(ch => ch.parentId === category.id)`. -/
def childIds (g : GuildState) (catId : Nat) : List Nat :=
  (g.channels.filter (fun ch => ch.parentId == some catId)).map Channel.id

/-- Removing a channel from the cache after a successful delete call. -/
def removeChannel (g : GuildState) (chId : Nat) : GuildState :=
  { g with channels := g.channels.filter (fun ch => !(ch.id == chId)) }

/-- An observable action of deletePortal: a delete attempt on a channel id
together with whether the remote call succeeded. -/
inductive Act where
  | del : Nat → Bool → Act
deriving DecidableEq, Repr

/-- The state threaded through deletePortal: the guild state plus the trace
of delete attempts made so far. -/
abbrev DState := GuildState × List Act

/-- One remote `.delete()` call: the oracle decides whether the remote call
succeeds; a failure raises (Except.error) carrying the state, in which the
attempt is still recorded. -/
def doDelete (oracle : Nat → Bool) (chId : Nat) (s : DState) : Except DState DState :=
  if oracle chId then Except.ok (removeChannel s.1 chId, s.2 ++ [Act.del chId true])
  else Except.error (s.1, s.2 ++ [Act.del chId false])

/-- Resolving a possibly-thrown computation to its carried state (used to
speak about the state and trace of a body whether or not it threw). -/
def settle : Except DState DState → DState
  | Except.ok s => s
  | Except.error s => s

/-- The inner try/catch of the primary loop: one child delete, its failure
caught and logged. -/
def deleteChildCaught (oracle : Nat → Bool) (s : DState) (cid : Nat) : DState :=
  settle (doDelete oracle cid s)

/-- The body of the try block of the primary loop of deletePortal: snapshot
the children, delete each with its own try/catch, then delete the category
(uncaught here, caught by the per-category catch). -/
def primaryBody (oracle : Nat → Bool) (catId : Nat) (s : DState) : Except DState DState :=
  let cids := childIds s.1 catId
  let s1 := cids.foldl (deleteChildCaught oracle) s
  doDelete oracle catId s1

/-- The body of the try block of the fallback loop of deletePortal: the
child deletes are NOT individually caught, so the first failing child
aborts the remaining children and the category delete of this category. -/
def fallbackBody (oracle : Nat → Bool) (catId : Nat) (s : DState) : Except DState DState := do
  let cids := childIds s.1 catId
  let s1 ← cids.foldlM (fun s cid => doDelete oracle cid s) s
  doDelete oracle catId s1

/-- A per-category catch clause: the failure is logged and the sweep
continues with the state carried by the exception. -/
def catchLog (x : Except DState DState) : Except DState DState :=
  match x with
  | Except.ok s => Except.ok s
  | Except.error s => Except.ok s

/-- The primary loop of deletePortal over the matched category ids. -/
def primaryPhase (oracle : Nat → Bool) (catIds : List Nat) (s : DState) :
    Except DState DState :=
  catIds.foldlM (fun s c => catchLog (primaryBody oracle c s)) s

/-- The fallback loop of deletePortal over the guessed category ids. -/
def fallbackPhase (oracle : Nat → Bool) (catIds : List Nat) (s : DState) :
    Except DState DState :=
  catIds.foldlM (fun s c => catchLog (fallbackBody oracle c s)) s

/-- deletePortal from the source: run the primary ownership-based sweep
over findMemberCategories; when that search produced zero categories, run
the fallback name-suffix sweep. -/
def deletePortal (cfg : Config) (oracle : Nat → Bool) (g : GuildState) (m : Member) :
    Except DState DState :=
  (primaryPhase oracle ((findMemberCategories cfg g m).map Channel.id) (g, [])).bind
    fun s1 =>
      if ((findMemberCategories cfg g m).map Channel.id).isEmpty then
        fallbackPhase oracle ((guessCategories cfg s1.1 m).map Channel.id) s1
      else
        Except.ok s1

/-- The welcome line sent by the guildMemberAdd handler. -/
def welcomeMessage (cfg : Config) (g : GuildState) (m : Member) : String :=
  let staffId := jsTrim (cfg.staffRoleId.getD (String.mk []))
  let hasStaff := isValidSnowflake staffId && g.roles.contains staffId
  "Welcome <@" ++ m.id ++ ">! This private space is visible to you" ++
    (if hasStaff then " and our staff" else String.mk []) ++ "."

/-- The guildMemberAdd handler: ensurePortal inside a catch-all; on success
find the first text channel under the category and send the welcome message
there; on error log and send nothing.  The result is the guild state after
the handler and the message sent (channel id and content), if any. -/
def onGuildMemberAdd (cfg : Config) (g : GuildState) (m : Member) :
    GuildState × Option (Nat × String) :=
  match ensurePortal cfg m g with
  | Except.error _ => (g, none)
  | Except.ok (g1, catId) =>
    match g1.channels.find? (fun ch => ch.type == ChanType.text && ch.parentId == some catId) with
    | some first => (g1, some (first.id, welcomeMessage cfg g1 m))
    | none => (g1, none)

/-- Modelled from the spec: the sanitisation keep-set written directly from
the spec words, every character outside [a-zA-Z0-9-_]. -/
def specKeep (c : Char) : Bool :=
  decide ((('a' ≤ c ∧ c ≤ 'z') ∨ ('A' ≤ c ∧ c ≤ 'Z') ∨ ('0' ≤ c ∧ c ≤ '9')) ∨
    (c = '-' ∨ c = '_'))

/-- Modelled from the spec: strip every character outside [a-zA-Z0-9-_],
then lowercase the result. -/
def specSanitize (s : String) : String :=
  String.mk ((s.data.filter specKeep).map Char.toLower)

/-- Modelled from the spec: the last four characters of the id, written as
reverse-take-reverse. -/
def specLast4 (s : String) : String :=
  String.mk ((s.data.reverse.take 4).reverse)

/-- Well-formedness of one channel against the fresh-id counter: its own id
and its parent id are below the counter. -/
def wfChan (n : Nat) (ch : Channel) : Bool :=
  ch.id < n && (match ch.parentId with | none => true | some p => p < n)

/-- Well-formedness of a guild state: every cached channel id and parent id
is below the fresh-id counter. -/
def wfState (g : GuildState) : Bool :=
  g.channels.all (wfChan g.nextId)

/-- The number of text channels in a channel list with the given name under
the given category. -/
def countTextMatching (l : List Channel) (catId : Nat) (nm : String) : Nat :=
  (l.filter (isTextMatch catId nm)).length

/-- The number of categories in a channel list bearing the given name. -/
def countCatMatching (l : List Channel) (catName : String) : Nat :=
  (l.filter (isCatMatch catName)).length

/-- Example configuration of the spec scenario: default staff role unset,
default prefix, channels General and Files. -/
def exCfg : Config :=
  { staffRoleId := none, categoryPrefix := "client-", channelNames := "General,Files" }

/-- Example member of the spec scenario: snowflake ending in 7890 and
username sanitising to john. -/
def exM : Member := { id := "12345678901234567890", username := "Jo.Hn!" }

/-- The same member after a later username change (same snowflake). -/
def exM2 : Member := { id := "12345678901234567890", username := "Someone_Else" }

/-- An empty guild. -/
def exG0 : GuildState :=
  { guildId := "G", everyoneId := "E", roles := [], channels := [], nextId := 0 }

/-- The permission overwrites computed for the example member in a guild
with no staff role configured. -/
def exPerms : List Overwrite :=
  [ Overwrite.mk "E" [] [Perm.viewChannel],
    Overwrite.mk "12345678901234567890" memberAllowPerms [] ]

/-- The guild after provisioning the example portal in the empty guild:
one category and the two configured text channels under it. -/
def exG1 : GuildState :=
  { guildId := "G", everyoneId := "E", roles := [],
    channels := [ Channel.mk 0 ChanType.category "client-john-7890" none exPerms,
                  Channel.mk 1 ChanType.text "General" (some 0) exPerms,
                  Channel.mk 2 ChanType.text "Files" (some 0) exPerms ],
    nextId := 3 }

/-- A configuration whose channel list trims to empty. -/
def exCfgEmpty : Config :=
  { staffRoleId := none, categoryPrefix := "client-", channelNames := " , ,  " }

/-- A configuration whose channel list holds the same name twice. -/
def exCfgDup : Config :=
  { staffRoleId := none, categoryPrefix := "client-", channelNames := "a , a" }

/-- A configuration with a non-snowflake staff role id. -/
def exCfgStaff : Config :=
  { staffRoleId := some "abc", categoryPrefix := "client-", channelNames := "General" }

/-- A guild holding a stale portal category (empty overwrites, so only the
name still marks ownership) with two child channels. -/
def exG5 : GuildState :=
  { guildId := "G", everyoneId := "E", roles := [],
    channels := [ Channel.mk 10 ChanType.category "client-x-7890" none [],
                  Channel.mk 11 ChanType.text "a" (some 10) [],
                  Channel.mk 12 ChanType.text "b" (some 10) [] ],
    nextId := 13 }

/-- A delete oracle under which only the call on channel 11 fails. -/
def exOracleFail11 : Nat → Bool := fun n => n != 11

/-- A delete oracle under which every call succeeds. -/
def exOracleTrue : Nat → Bool := fun _ => true

/-- The first configured channel name of the example configuration. -/
def exGeneral : String := "General"

/-- The channel name configured twice in the duplicate configuration. -/
def exAName : String := "a"

/-- The invalid staff role id used in exCfgStaff. -/
def exStaffBad : String := "abc"

/-- A guild holding a portal category still carrying the member overwrite,
so that the primary ownership search finds it. -/
def exG6 : GuildState :=
  { guildId := "G", everyoneId := "E", roles := [],
    channels := [ Channel.mk 20 ChanType.category "client-old-7890" none exPerms ],
    nextId := 21 }

theorem ensureChannels_fields (ow : List Overwrite) (c : Nat) (names : List String) :
    ∀ g : GuildState, (ensureChannels ow c names g).guildId = g.guildId ∧
      (ensureChannels ow c names g).everyoneId = g.everyoneId ∧
      (ensureChannels ow c names g).roles = g.roles ∧
      g.nextId ≤ (ensureChannels ow c names g).nextId := by
  induction names with
  | nil => intro g; simp [ensureChannels]
  | cons nm rest ih =>
    intro g
    rw [ensureChannels]
    cases h : g.channels.find? (isTextMatch c nm) with
    | some ch => exact ih g
    | none =>
      have h2 := ih (createChannel g ChanType.text nm (some c) ow).1
      simp only [createChannel] at h2
      exact ⟨h2.1, h2.2.1, h2.2.2.1, Nat.le_trans (Nat.le_succ _) h2.2.2.2⟩

theorem ensureChannels_append (ow : List Overwrite) (c : Nat) (names : List String) :
    ∀ g : GuildState, ∃ added : List Channel,
      (ensureChannels ow c names g).channels = g.channels ++ added ∧
      ∀ ch ∈ added, ch.type = ChanType.text ∧ ch.parentId = some c ∧
        ch.overwrites = ow ∧ g.nextId ≤ ch.id := by
  induction names with
  | nil => intro g; exact ⟨[], by simp [ensureChannels], by simp⟩
  | cons nm rest ih =>
    intro g
    rw [ensureChannels]
    cases h : g.channels.find? (isTextMatch c nm) with
    | some ch => exact ih g
    | none =>
      obtain ⟨added, hadd, hprop⟩ := ih (createChannel g ChanType.text nm (some c) ow).1
      refine ⟨Channel.mk g.nextId ChanType.text nm (some c) ow :: added, ?_, ?_⟩
      · simpa [createChannel] using hadd
      · intro ch hch
        cases hch with
        | head => exact ⟨rfl, rfl, rfl, Nat.le_refl _⟩
        | tail _ hmem =>
          have := hprop ch hmem
          simp only [createChannel] at this
          exact ⟨this.1, this.2.1, this.2.2.1, Nat.le_trans (Nat.le_succ _) this.2.2.2⟩

theorem find?_none_iff_count_zero (p : Channel → Bool) (l : List Channel) :
    l.find? p = none ↔ (l.filter p).length = 0 := by
  rw [List.find?_eq_none, List.length_eq_zero, List.filter_eq_nil_iff]

theorem count_pos_iff_find?_isSome (p : Channel → Bool) (l : List Channel) :
    0 < (l.filter p).length ↔ (l.find? p).isSome := by
  rw [List.length_pos, Ne, List.filter_eq_nil_iff, List.find?_isSome]
  push_neg
  simp

theorem ensureChannels_count (ow : List Overwrite) (c : Nat) (names : List String) :
    ∀ (g : GuildState) (nm : String),
      countTextMatching (ensureChannels ow c names g).channels c nm =
        if 0 < countTextMatching g.channels c nm then countTextMatching g.channels c nm
        else if nm ∈ names then 1 else 0 := by
  induction names with
  | nil =>
    intro g nm
    rw [ensureChannels]
    simp only [List.not_mem_nil, if_false]
    split <;> omega
  | cons nm' rest ih =>
    intro g nm
    rw [ensureChannels]
    cases h : g.channels.find? (isTextMatch c nm') with
    | some ch =>
      have hpos : 0 < countTextMatching g.channels c nm' := by
        unfold countTextMatching
        rw [count_pos_iff_find?_isSome, h]
        rfl
      rw [ih g nm]
      by_cases hnm : nm = nm'
      · subst hnm
        simp [hpos]
      · simp [List.mem_cons, hnm]
    | none =>
      have hzero : countTextMatching g.channels c nm' = 0 := by
        unfold countTextMatching
        exact (find?_none_iff_count_zero _ _).mp h
      rw [ih _ nm]
      have hstep : countTextMatching ((createChannel g ChanType.text nm' (some c) ow).1).channels c nm
          = countTextMatching g.channels c nm + (if nm = nm' then 1 else 0) := by
        simp only [createChannel, countTextMatching, List.filter_append, List.length_append]
        by_cases hnm : nm = nm'
        · subst hnm
          simp [isTextMatch]
        · have hne : (nm' == nm) = false := by
            rw [beq_eq_false_iff_ne]
            exact fun h => hnm h.symm
          have : isTextMatch c nm (Channel.mk g.nextId ChanType.text nm' (some c) ow) = false := by
            simp [isTextMatch, hne]
          simp [this, hnm]
      rw [hstep]
      by_cases hnm : nm = nm'
      · subst hnm
        simp [hzero, List.mem_cons]
      · simp [List.mem_cons, hnm]

theorem ensureChannels_noop (ow : List Overwrite) (c : Nat) (names : List String) :
    ∀ g : GuildState, (∀ nm ∈ names, 0 < countTextMatching g.channels c nm) →
      ensureChannels ow c names g = g := by
  induction names with
  | nil => intro g _; rw [ensureChannels]
  | cons nm rest ih =>
    intro g hall
    rw [ensureChannels]
    cases h : g.channels.find? (isTextMatch c nm) with
    | some ch => exact ih g (fun x hx => hall x (List.mem_cons_of_mem _ hx))
    | none =>
      exfalso
      have hpos := hall nm (List.mem_cons_self _ _)
      have h0 : countTextMatching g.channels c nm = 0 := by
        unfold countTextMatching
        exact (find?_none_iff_count_zero _ _).mp h
      omega

theorem overwritesFor_congr (cfg : Config) (m : Member) (g1 g2 : GuildState)
    (he : g1.everyoneId = g2.everyoneId) (hr : g1.roles = g2.roles) :
    overwritesFor cfg g1 m = overwritesFor cfg g2 m := by
  unfold overwritesFor
  rw [he, hr]

theorem list_map_id_on {α : Type} (f : α → α) :
    ∀ l : List α, (∀ x ∈ l, f x = x) → l.map f = l := by
  intro l
  induction l with
  | nil => intro _; rfl
  | cons a t ih =>
    intro h
    rw [List.map_cons, h a (List.mem_cons_self _ _),
      ih (fun x hx => h x (List.mem_cons_of_mem _ hx))]

theorem setOverwrites_eq_self (g : GuildState) (catId : Nat) (ow : List Overwrite)
    (h : ∀ ch ∈ g.channels, ch.id = catId → ch.overwrites = ow) :
    setOverwrites g catId ow = g := by
  unfold setOverwrites
  have hmap : g.channels.map
      (fun ch => if ch.id = catId then { ch with overwrites := ow } else ch) = g.channels := by
    apply list_map_id_on
    intro ch hch
    by_cases hid : ch.id = catId
    · rw [if_pos hid, ← h ch hch hid]
    · rw [if_neg hid]
  rw [hmap]

theorem ensurePortal_create (cfg : Config) (m : Member) (g : GuildState)
    (hne : (channelNamesOf cfg).isEmpty = false)
    (hclean : g.channels.find? (isCatMatch (categoryNameFor cfg m)) = none) :
    ensurePortal cfg m g = Except.ok
      (ensureChannels (overwritesFor cfg g m) g.nextId (channelNamesOf cfg)
        (createChannel g ChanType.category (categoryNameFor cfg m) none
          (overwritesFor cfg g m)).1, g.nextId) := by
  simp only [ensurePortal]
  rw [hne, hclean]
  rfl

theorem ensurePortal_reuse (cfg : Config) (m : Member) (g : GuildState) (cat : Channel)
    (hne : (channelNamesOf cfg).isEmpty = false)
    (hfind : g.channels.find? (isCatMatch (categoryNameFor cfg m)) = some cat) :
    ensurePortal cfg m g = Except.ok
      (ensureChannels (overwritesFor cfg g m) cat.id (channelNamesOf cfg)
        (setOverwrites g cat.id (overwritesFor cfg g m)), cat.id) := by
  simp only [ensurePortal]
  rw [hne, hfind]
  rfl

theorem countTextMatching_fresh (g : GuildState) (hwf : wfState g = true) (nm : String) :
    countTextMatching g.channels g.nextId nm = 0 := by
  unfold countTextMatching
  rw [List.length_eq_zero, List.filter_eq_nil_iff]
  intro ch hch
  unfold wfState at hwf
  have hw := List.all_eq_true.mp hwf ch hch
  unfold wfChan at hw
  unfold isTextMatch
  simp only [Bool.and_eq_true, beq_iff_eq] at hw ⊢
  intro hcontra
  rw [hcontra.1.2] at hw
  simp at hw

/-- C1: ensurePortal is idempotent.  On a well-formed guild that holds no
category of the member's computed name, a successful first call is
followed by a second call that performs no state change and returns the
same category; afterwards exactly one category of the computed name exists
and exactly one text channel per configured channel name exists under
it. -/
theorem c1_ensurePortal_idempotent (cfg : Config) (m : Member)
    (g g1 : GuildState) (c : Nat)
    (hwf : wfState g = true)
    (hclean : g.channels.find? (isCatMatch (categoryNameFor cfg m)) = none)
    (h1 : ensurePortal cfg m g = Except.ok (g1, c)) :
    ensurePortal cfg m g1 = Except.ok (g1, c) ∧
    countCatMatching g1.channels (categoryNameFor cfg m) = 1 ∧
    ∀ nm ∈ channelNamesOf cfg, countTextMatching g1.channels c nm = 1 := by
  have hne : (channelNamesOf cfg).isEmpty = false := by
    cases hi : (channelNamesOf cfg).isEmpty
    · rfl
    · simp only [ensurePortal] at h1
      rw [hi] at h1
      simp at h1
  have hEP := ensurePortal_create cfg m g hne hclean
  rw [hEP] at h1
  simp only [Except.ok.injEq, Prod.mk.injEq] at h1
  obtain ⟨hg1, hc⟩ := h1
  subst hc
  subst hg1
  have hstAch : (createChannel g ChanType.category (categoryNameFor cfg m) none
      (overwritesFor cfg g m)).1.channels = g.channels ++
      [Channel.mk g.nextId ChanType.category (categoryNameFor cfg m) none
        (overwritesFor cfg g m)] := rfl
  obtain ⟨added, haddeq, haddprop⟩ := ensureChannels_append (overwritesFor cfg g m) g.nextId
    (channelNamesOf cfg)
    (createChannel g ChanType.category (categoryNameFor cfg m) none (overwritesFor cfg g m)).1
  have hcntTxt : ∀ nm : String,
      countTextMatching (ensureChannels (overwritesFor cfg g m) g.nextId (channelNamesOf cfg)
        (createChannel g ChanType.category (categoryNameFor cfg m) none
          (overwritesFor cfg g m)).1).channels g.nextId nm =
      if nm ∈ channelNamesOf cfg then 1 else 0 := by
    intro nm
    rw [ensureChannels_count]
    have h0 : countTextMatching (createChannel g ChanType.category (categoryNameFor cfg m) none
        (overwritesFor cfg g m)).1.channels g.nextId nm = 0 := by
      unfold countTextMatching
      rw [hstAch, List.filter_append, List.length_append]
      have hg0 := countTextMatching_fresh g hwf nm
      unfold countTextMatching at hg0
      rw [hg0]
      simp [isTextMatch]
    rw [h0]
    simp
  have hcntCat : countCatMatching (ensureChannels (overwritesFor cfg g m) g.nextId
      (channelNamesOf cfg) (createChannel g ChanType.category (categoryNameFor cfg m) none
        (overwritesFor cfg g m)).1).channels (categoryNameFor cfg m) = 1 := by
    unfold countCatMatching
    rw [haddeq, hstAch, List.filter_append, List.filter_append, List.length_append,
      List.length_append]
    have hgz : (g.channels.filter (isCatMatch (categoryNameFor cfg m))).length = 0 :=
      (find?_none_iff_count_zero _ _).mp hclean
    have hcat1 : ([Channel.mk g.nextId ChanType.category (categoryNameFor cfg m) none
        (overwritesFor cfg g m)].filter (isCatMatch (categoryNameFor cfg m))).length = 1 := by
      simp [isCatMatch]
    have haz : (added.filter (isCatMatch (categoryNameFor cfg m))).length = 0 := by
      rw [List.length_eq_zero, List.filter_eq_nil_iff]
      intro ch hch
      have ht := (haddprop ch hch).1
      simp [isCatMatch, ht]
    omega
  refine ⟨?_, hcntCat, fun nm hnm => by rw [hcntTxt nm]; simp [hnm]⟩
  have hfieldsA := ensureChannels_fields (overwritesFor cfg g m) g.nextId (channelNamesOf cfg)
    (createChannel g ChanType.category (categoryNameFor cfg m) none (overwritesFor cfg g m)).1
  have hperm2 : overwritesFor cfg (ensureChannels (overwritesFor cfg g m) g.nextId
      (channelNamesOf cfg) (createChannel g ChanType.category (categoryNameFor cfg m) none
        (overwritesFor cfg g m)).1) m = overwritesFor cfg g m :=
    overwritesFor_congr cfg m _ g hfieldsA.2.1 hfieldsA.2.2.1
  have hfind1 : (ensureChannels (overwritesFor cfg g m) g.nextId (channelNamesOf cfg)
      (createChannel g ChanType.category (categoryNameFor cfg m) none
        (overwritesFor cfg g m)).1).channels.find? (isCatMatch (categoryNameFor cfg m)) =
      some (Channel.mk g.nextId ChanType.category (categoryNameFor cfg m) none
        (overwritesFor cfg g m)) := by
    rw [haddeq, List.find?_append, hstAch, List.find?_append, hclean]
    have hone : [Channel.mk g.nextId ChanType.category (categoryNameFor cfg m) none
        (overwritesFor cfg g m)].find? (isCatMatch (categoryNameFor cfg m)) =
        some (Channel.mk g.nextId ChanType.category (categoryNameFor cfg m) none
          (overwritesFor cfg g m)) := by
      simp [List.find?, isCatMatch]
    rw [hone]
    rfl
  have hsecond := ensurePortal_reuse cfg m (ensureChannels (overwritesFor cfg g m) g.nextId
    (channelNamesOf cfg) (createChannel g ChanType.category (categoryNameFor cfg m) none
      (overwritesFor cfg g m)).1)
    (Channel.mk g.nextId ChanType.category (categoryNameFor cfg m) none (overwritesFor cfg g m))
    hne hfind1
  dsimp only at hsecond
  rw [hperm2] at hsecond
  have hso : setOverwrites (ensureChannels (overwritesFor cfg g m) g.nextId (channelNamesOf cfg)
      (createChannel g ChanType.category (categoryNameFor cfg m) none
        (overwritesFor cfg g m)).1) g.nextId (overwritesFor cfg g m) =
      ensureChannels (overwritesFor cfg g m) g.nextId (channelNamesOf cfg)
        (createChannel g ChanType.category (categoryNameFor cfg m) none
          (overwritesFor cfg g m)).1 := by
    apply setOverwrites_eq_self
    intro ch hch hid
    rw [haddeq] at hch
    rcases List.mem_append.mp hch with hch1 | hch2
    · rw [hstAch] at hch1
      rcases List.mem_append.mp hch1 with hgch | hcch
      · exfalso
        unfold wfState at hwf
        have hw := List.all_eq_true.mp hwf ch hgch
        unfold wfChan at hw
        simp only [Bool.and_eq_true, decide_eq_true_eq] at hw
        omega
      · have : ch = Channel.mk g.nextId ChanType.category (categoryNameFor cfg m) none
            (overwritesFor cfg g m) := by simpa using hcch
        rw [this]
    · exfalso
      have hgt : g.nextId + 1 ≤ ch.id := (haddprop ch hch2).2.2.2
      omega
  rw [hso] at hsecond
  have hnoop : ensureChannels (overwritesFor cfg g m) g.nextId (channelNamesOf cfg)
      (ensureChannels (overwritesFor cfg g m) g.nextId (channelNamesOf cfg)
        (createChannel g ChanType.category (categoryNameFor cfg m) none
          (overwritesFor cfg g m)).1) =
      ensureChannels (overwritesFor cfg g m) g.nextId (channelNamesOf cfg)
        (createChannel g ChanType.category (categoryNameFor cfg m) none
          (overwritesFor cfg g m)).1 := by
    apply ensureChannels_noop
    intro nm hnm
    rw [hcntTxt nm]
    simp [hnm]
  rw [hnoop] at hsecond
  exact hsecond

/-- Witness for C1: the spec scenario, run concretely in the empty guild,
satisfies every hypothesis, and the second call is a no-op returning
category 0. -/
theorem c1_ensurePortal_idempotent_witness :
    ensurePortal exCfg exM exG1 = Except.ok (exG1, 0) ∧
    countCatMatching exG1.channels (categoryNameFor exCfg exM) = 1 ∧
    countTextMatching exG1.channels 0 exGeneral = 1 :=
  ⟨(c1_ensurePortal_idempotent exCfg exM exG0 exG1 0 (by decide) (by rfl) (by rfl)).1,
   (c1_ensurePortal_idempotent exCfg exM exG0 exG1 0 (by decide) (by rfl) (by rfl)).2.1,
   (c1_ensurePortal_idempotent exCfg exM exG0 exG1 0 (by decide) (by rfl) (by rfl)).2.2
     exGeneral (by decide)⟩

theorem isSafeChar_eq_specKeep (c : Char) : isSafeChar c = specKeep c := by
  unfold isSafeChar specKeep
  unfold Char.isAlphanum Char.isAlpha Char.isDigit Char.isUpper Char.isLower
  rw [Bool.eq_iff_iff]
  simp only [Bool.or_eq_true, Bool.and_eq_true, decide_eq_true_eq, Char.le_def, Char.ext_iff,
    ge_iff_le, show Char.val 'a' = 97 from rfl, show Char.val 'z' = 122 from rfl,
    show Char.val 'A' = 65 from rfl, show Char.val 'Z' = 90 from rfl,
    show Char.val '0' = 48 from rfl, show Char.val '9' = 57 from rfl]
  tauto

theorem sanitizeName_eq_specSanitize (s : String) : sanitizeName s = specSanitize s := by
  unfold sanitizeName specSanitize
  rw [List.filter_congr (fun c _ => isSafeChar_eq_specKeep c)]

theorem last4_eq_specLast4 (s : String) : last4 s = specLast4 s := by
  unfold last4 specLast4
  have h : (List.take 4 s.data.reverse).reverse =
      List.drop (s.data.reverse.length - 4) s.data.reverse.reverse := List.reverse_take
  rw [List.reverse_reverse, List.length_reverse] at h
  rw [h]

/-- C2: categoryNameFor is deterministic and equals the configured prefix,
followed by the username with every character outside [a-zA-Z0-9-_]
removed and the result lowercased, followed by a dash, followed by the
last four characters of the member id. -/
theorem c2_categoryNameFor_deterministic_shape (cfg : Config) (m : Member) :
    categoryNameFor cfg m = categoryNameFor cfg m ∧
    categoryNameFor cfg m =
      cfg.categoryPrefix ++ specSanitize m.username ++ dash ++ specLast4 m.id := by
  refine ⟨rfl, ?_⟩
  unfold categoryNameFor
  rw [sanitizeName_eq_specSanitize, last4_eq_specLast4]

/-- C3 counterexample: the second source variant of overwritesFor includes
a staff entry for the configured id "abc" even though that id is not a
17-to-20-digit snowflake and is not a role of the guild, refuting the
claimed if-and-only-if condition for that function. -/
theorem c3_overwritesFor_counterexample :
    ¬ ((Overwrite.mk exStaffBad staffAllowPerms [] ∈
          Variant2.overwritesFor exCfgStaff exG0 exM) ↔
        (isValidSnowflake (jsTrim exStaffBad) = true ∧ jsTrim exStaffBad ∈ exG0.roles)) := by
  decide


/-- C3 (amended): the primary overwritesFor always contains the deny entry
for the everyone role and the allow entry for the member, and contains the
staff entry exactly when the trimmed configured staff id is a valid
snowflake present in the guild role set; the second variant instead
contains a staff-shaped entry exactly when the configured staff id is a
truthy (non-empty) string, with no validation and no role lookup. -/
theorem c3_overwritesFor_entries (cfg : Config) (g : GuildState) (m : Member) :
    (Overwrite.mk g.everyoneId [] [Perm.viewChannel] ∈ overwritesFor cfg g m) ∧
    (Overwrite.mk m.id memberAllowPerms [] ∈ overwritesFor cfg g m) ∧
    ((Overwrite.mk (jsTrim (cfg.staffRoleId.getD (String.mk []))) staffAllowPerms [] ∈
        overwritesFor cfg g m) ↔
      (isValidSnowflake (jsTrim (cfg.staffRoleId.getD (String.mk []))) = true ∧
        jsTrim (cfg.staffRoleId.getD (String.mk [])) ∈ g.roles)) ∧
    ((∃ ow ∈ Variant2.overwritesFor cfg g m, ow.allow = staffAllowPerms) ↔
      (∃ s, cfg.staffRoleId = some s ∧ s ≠ String.mk [])) := by
  have hMemberNeStaff : memberAllowPerms ≠ staffAllowPerms := by decide
  have hNilNeStaff : ([] : List Perm) ≠ staffAllowPerms := by decide
  refine ⟨?_, ?_, ?_, ?_⟩
  · simp only [overwritesFor]
    split <;> simp
  · simp only [overwritesFor]
    split <;> simp
  · simp only [overwritesFor]
    split
    · rename_i hcond
      rw [Bool.and_eq_true, List.elem_iff] at hcond
      simp [List.mem_append, hcond]
    · rename_i hcond
      rw [Bool.and_eq_true, List.elem_iff] at hcond
      constructor
      · intro hmem
        exfalso
        simp only [List.mem_cons, List.not_mem_nil, or_false] at hmem
        rcases hmem with h | h
        · exact hNilNeStaff (congrArg Overwrite.allow h).symm
        · exact hMemberNeStaff (congrArg Overwrite.allow h).symm
      · intro hvr
        exact absurd ⟨hvr.1, hvr.2⟩ hcond
  · cases hsr : cfg.staffRoleId with
    | none =>
      simp only [Variant2.overwritesFor, hsr]
      constructor
      · intro hex
        exfalso
        obtain ⟨ow, howmem, howallow⟩ := hex
        simp only [List.mem_cons, List.not_mem_nil, or_false] at howmem
        rcases howmem with h | h
        · rw [h] at howallow
          exact hNilNeStaff howallow
        · rw [h] at howallow
          exact hMemberNeStaff howallow
      · intro hex
        exfalso
        obtain ⟨s, hs, _⟩ := hex
        exact Option.noConfusion hs
    | some s =>
      simp only [Variant2.overwritesFor, hsr]
      by_cases hs0 : s = String.mk []
      · rw [if_pos hs0]
        constructor
        · intro hex
          exfalso
          obtain ⟨ow, howmem, howallow⟩ := hex
          simp only [List.mem_cons, List.not_mem_nil, or_false] at howmem
          rcases howmem with h | h
          · rw [h] at howallow
            exact hNilNeStaff howallow
          · rw [h] at howallow
            exact hMemberNeStaff howallow
        · intro hex
          exfalso
          obtain ⟨t, ht, htne⟩ := hex
          have hts : t = s := Option.some.inj ht.symm
          exact htne (hts ▸ hs0)
      · rw [if_neg hs0]
        constructor
        · intro _
          exact ⟨s, rfl, hs0⟩
        · intro _
          refine ⟨Overwrite.mk s staffAllowPerms [], ?_, rfl⟩
          simp [List.mem_append]

theorem catchLog_ok (x : Except DState DState) : catchLog x = Except.ok (settle x) := by
  cases x <;> rfl

theorem foldlM_catchLog_ok (bodyFn : Nat → DState → Except DState DState) :
    ∀ (l : List Nat) (s : DState),
      l.foldlM (fun s c => catchLog (bodyFn c s)) s =
        Except.ok (l.foldl (fun s c => settle (bodyFn c s)) s) := by
  intro l
  induction l with
  | nil => intro s; rfl
  | cons c rest ih =>
    intro s
    show catchLog (bodyFn c s) >>= _ = _
    rw [catchLog_ok]
    show rest.foldlM _ (settle (bodyFn c s)) = _
    rw [ih]
    rfl

theorem except_bind_ok (x : DState) (f : DState → Except DState DState) :
    (Except.ok x : Except DState DState).bind f = f x := rfl

theorem primaryPhase_ok (oracle : Nat → Bool) (catIds : List Nat) (s : DState) :
    primaryPhase oracle catIds s =
      Except.ok (catIds.foldl (fun s c => settle (primaryBody oracle c s)) s) :=
  foldlM_catchLog_ok _ catIds s

theorem fallbackPhase_ok (oracle : Nat → Bool) (catIds : List Nat) (s : DState) :
    fallbackPhase oracle catIds s =
      Except.ok (catIds.foldl (fun s c => settle (fallbackBody oracle c s)) s) :=
  foldlM_catchLog_ok _ catIds s

/-- C4: deletePortal never throws to its caller: whatever the member, the
guild and the pattern of remote delete failures, every failure is caught
inside the sweep and the function returns normally. -/
theorem c4_deletePortal_never_throws (cfg : Config) (oracle : Nat → Bool)
    (g : GuildState) (m : Member) :
    ∃ s : DState, deletePortal cfg oracle g m = Except.ok s := by
  unfold deletePortal
  rw [primaryPhase_ok, except_bind_ok]
  by_cases hc : ((findMemberCategories cfg g m).map Channel.id).isEmpty = true
  · rw [if_pos hc, fallbackPhase_ok]
    exact ⟨_, rfl⟩
  · rw [if_neg hc]
    exact ⟨_, rfl⟩

theorem deleteChildCaught_step (oracle : Nat → Bool) (g : GuildState) (tr : List Act)
    (cid : Nat) :
    deleteChildCaught oracle (g, tr) cid =
      (if oracle cid then removeChannel g cid else g, tr ++ [Act.del cid (oracle cid)]) := by
  unfold deleteChildCaught doDelete settle
  cases h : oracle cid <;> simp [h]

theorem foldl_deleteChildCaught_trace (oracle : Nat → Bool) :
    ∀ (cids : List Nat) (g : GuildState) (tr : List Act),
      (cids.foldl (deleteChildCaught oracle) (g, tr)).2 =
        tr ++ cids.map (fun cid => Act.del cid (oracle cid)) := by
  intro cids
  induction cids with
  | nil => intro g tr; simp
  | cons cid rest ih =>
    intro g tr
    rw [List.foldl_cons, deleteChildCaught_step, ih]
    simp

theorem settle_doDelete_trace (oracle : Nat → Bool) (c : Nat) (s : DState) :
    settle (doDelete oracle c s) = (if oracle c then removeChannel s.1 c else s.1,
      s.2 ++ [Act.del c (oracle c)]) := by
  unfold doDelete settle
  cases h : oracle c <;> simp [h]

theorem primaryBody_trace (oracle : Nat → Bool) (c : Nat) (g : GuildState) (tr : List Act) :
    (settle (primaryBody oracle c (g, tr))).2 =
      tr ++ (childIds g c).map (fun cid => Act.del cid (oracle cid)) ++ [Act.del c (oracle c)] := by
  unfold primaryBody
  rw [settle_doDelete_trace]
  show ((childIds g c).foldl (deleteChildCaught oracle) (g, tr)).2 ++ _ = _
  rw [foldl_deleteChildCaught_trace, List.append_assoc]

/-- C5 (amended): in the primary loop of deletePortal, a failing child
delete prevents neither the delete attempts on the remaining children nor
the delete attempt on the category: the body's trace is exactly one
attempt per snapshot child, in order, followed by the category attempt,
whatever the oracle of failures; in the fallback loop this is refuted by
the counterexample. -/
theorem c5_primary_children_isolated (oracle : Nat → Bool) (c : Nat) (g : GuildState)
    (tr : List Act) :
    (settle (primaryBody oracle c (g, tr))).2 =
      tr ++ (childIds g c).map (fun cid => Act.del cid (oracle cid)) ++ [Act.del c (oracle c)] ∧
    (∀ cid ∈ childIds g c, Act.del cid (oracle cid) ∈ (settle (primaryBody oracle c (g, tr))).2) ∧
    Act.del c (oracle c) ∈ (settle (primaryBody oracle c (g, tr))).2 := by
  refine ⟨primaryBody_trace oracle c g tr, ?_, ?_⟩
  · intro cid hcid
    rw [primaryBody_trace]
    simp only [List.mem_append]
    left
    right
    exact List.mem_map_of_mem _ hcid
  · rw [primaryBody_trace]
    simp

/-- C5 counterexample: in the fallback sweep the category client-x-7890 is
matched with snapshot children 11 and 12; the delete of child 11 fails,
and then neither child 12 nor the category 10 is ever attempted (the trace
holds the single failed attempt and the guild is unchanged), refuting the
claim for fallback-matched categories. -/
theorem c5_fallback_counterexample :
    (guessCategories exCfg exG5 exM).map Channel.id = [10] ∧
    childIds exG5 10 = [11, 12] ∧
    findMemberCategories exCfg exG5 exM = [] ∧
    deletePortal exCfg exOracleFail11 exG5 exM = Except.ok (exG5, [Act.del 11 false]) := by
  exact ⟨rfl, rfl, rfl, rfl⟩

theorem foldlM_doDelete_spec (oracle : Nat → Bool) :
    ∀ (cids : List Nat) (g : GuildState) (tr : List Act),
      ((∀ cid ∈ cids, oracle cid = true) ∧
        ∃ g2, cids.foldlM (fun s cid => doDelete oracle cid s) ((g, tr) : DState) =
          Except.ok (g2, tr ++ cids.map (fun cid => Act.del cid true))) ∨
      (∃ pre cf post g2, cids = pre ++ cf :: post ∧ (∀ x ∈ pre, oracle x = true) ∧
        oracle cf = false ∧
        cids.foldlM (fun s cid => doDelete oracle cid s) ((g, tr) : DState) =
          Except.error (g2, tr ++ pre.map (fun cid => Act.del cid true) ++ [Act.del cf false])) := by
  intro cids
  induction cids with
  | nil =>
    intro g tr
    left
    exact ⟨fun cid h => absurd h (List.not_mem_nil cid), g,
      by simp only [List.map_nil, List.append_nil]; rfl⟩
  | cons cid rest ih =>
    intro g tr
    cases ho : oracle cid with
    | false =>
      right
      refine ⟨[], cid, rest, g, by simp, by simp, ho, ?_⟩
      show doDelete oracle cid ((g, tr) : DState) >>= _ = _
      unfold doDelete
      rw [ho]
      simp only [Bool.false_eq_true, if_false, List.map_nil, List.nil_append, List.append_nil]
      rfl
    | true =>
      have hstep : doDelete oracle cid ((g, tr) : DState) =
          Except.ok (removeChannel g cid, tr ++ [Act.del cid true]) := by
        unfold doDelete
        rw [ho]
        simp
      have hfold : (cid :: rest).foldlM (fun s cid => doDelete oracle cid s) ((g, tr) : DState) =
          rest.foldlM (fun s cid => doDelete oracle cid s)
            ((removeChannel g cid, tr ++ [Act.del cid true]) : DState) := by
        show doDelete oracle cid ((g, tr) : DState) >>= _ = _
        rw [hstep]
        rfl
      rcases ih (removeChannel g cid) (tr ++ [Act.del cid true]) with
        ⟨hall, g2, hok⟩ | ⟨pre, cf, post, g2, hsplit, hpre, hcf, herr⟩
      · left
        refine ⟨?_, g2, ?_⟩
        · intro x hx
          rcases List.mem_cons.mp hx with h | h
          · exact h ▸ ho
          · exact hall x h
        · rw [hfold, hok]
          simp
      · right
        refine ⟨cid :: pre, cf, post, g2, ?_, ?_, hcf, ?_⟩
        · rw [List.cons_append, hsplit]
        · intro x hx
          rcases List.mem_cons.mp hx with h | h
          · exact h ▸ ho
          · exact hpre x h
        · rw [hfold, herr]
          simp

theorem append_singleton_decomp (A : List Act) (pre suf : List Act) (y z : Act)
    (h : A ++ [y] = pre ++ z :: suf) (hz : z ∉ A) : pre = A ∧ z = y ∧ suf = [] := by
  rcases List.append_eq_append_iff.mp h with ⟨t, hpre, hrest⟩ | ⟨t, hA, hrest⟩
  · cases t with
    | nil =>
      simp only [List.nil_append] at hrest
      have hy : y = z ∧ suf = [] := by
        have := hrest
        injection this with h1 h2
        exact ⟨h1, h2.symm⟩
      refine ⟨by rw [hpre]; simp, hy.1.symm, hy.2⟩
    | cons a t' =>
      exfalso
      have hlen := congrArg List.length hrest
      simp at hlen
  · cases t with
    | nil =>
      simp only [List.nil_append] at hrest
      have hy : z = y ∧ suf = [] := by
        injection hrest with h1 h2
        exact ⟨h1, h2⟩
      refine ⟨by rw [hA]; simp, hy.1, hy.2⟩
    | cons a t' =>
      exfalso
      injection hrest with h1 h2
      apply hz
      rw [hA, ← h1]
      exact List.mem_append_right _ (List.mem_cons_self _ _)

/-- C9: within deletePortal, for a category processed by either the
primary body or the fallback body, whenever the trace contains the delete
attempt on the category itself, every snapshot child of that category has
a delete attempt strictly earlier in the trace. -/
theorem c9_children_attempted_before_category (oracle : Nat → Bool) (c : Nat) (g : GuildState)
    (hc : ∀ cid ∈ childIds g c, cid ≠ c) :
    (∀ pre suf b, (settle (primaryBody oracle c ((g, []) : DState))).2 = pre ++ Act.del c b :: suf →
      ∀ cid ∈ childIds g c, (Act.del cid true ∈ pre ∨ Act.del cid false ∈ pre)) ∧
    (∀ pre suf b, (settle (fallbackBody oracle c ((g, []) : DState))).2 = pre ++ Act.del c b :: suf →
      ∀ cid ∈ childIds g c, (Act.del cid true ∈ pre ∨ Act.del cid false ∈ pre)) := by
  constructor
  · intro pre suf b heq cid hcid
    rw [primaryBody_trace, List.nil_append] at heq
    have hz : Act.del c b ∉ (childIds g c).map (fun cid => Act.del cid (oracle cid)) := by
      intro hmem
      obtain ⟨x, hx, hxeq⟩ := List.mem_map.mp hmem
      injection hxeq with h1 h2
      exact hc x hx h1
    obtain ⟨hpre, _, _⟩ := append_singleton_decomp _ pre suf _ _ heq hz
    subst hpre
    have hin : Act.del cid (oracle cid) ∈
        List.map (fun cid => Act.del cid (oracle cid)) (childIds g c) :=
      List.mem_map_of_mem _ hcid
    cases ho : oracle cid with
    | true =>
      left
      rw [ho] at hin
      exact hin
    | false =>
      right
      rw [ho] at hin
      exact hin
  · intro pre suf b heq cid hcid
    rcases foldlM_doDelete_spec oracle (childIds g c) g [] with
      ⟨hall, g2, hok⟩ | ⟨pre', cf, post, g2, hsplit, hpre', hcf, herr⟩
    · have hfb : fallbackBody oracle c ((g, []) : DState) =
          doDelete oracle c (g2, [] ++ (childIds g c).map (fun cid => Act.del cid true)) := by
        show (childIds g c).foldlM _ ((g, []) : DState) >>= _ = _
        rw [hok]
        rfl
      rw [hfb, settle_doDelete_trace] at heq
      simp only [List.nil_append] at heq
      have hz : Act.del c b ∉ (childIds g c).map (fun cid => Act.del cid true) := by
        intro hmem
        obtain ⟨x, hx, hxeq⟩ := List.mem_map.mp hmem
        injection hxeq with h1 h2
        exact hc x hx h1
      obtain ⟨hpre, _, _⟩ := append_singleton_decomp _ pre suf _ _ heq hz
      subst hpre
      left
      exact List.mem_map_of_mem _ hcid
    · exfalso
      have hfb : fallbackBody oracle c ((g, []) : DState) =
          Except.error (g2, [] ++ pre'.map (fun cid => Act.del cid true) ++ [Act.del cf false]) := by
        show (childIds g c).foldlM _ ((g, []) : DState) >>= _ = _
        rw [herr]
        rfl
      rw [hfb] at heq
      simp only [settle, List.nil_append] at heq
      have hmem : Act.del c b ∈ pre'.map (fun cid => Act.del cid true) ++ [Act.del cf false] := by
        rw [heq]
        exact List.mem_append_right _ (List.mem_cons_self _ _)
      rcases List.mem_append.mp hmem with hm | hm
      · obtain ⟨x, hx, hxeq⟩ := List.mem_map.mp hm
        injection hxeq with h1 h2
        refine hc x ?_ h1
        rw [hsplit]
        exact List.mem_append_left _ hx
      · have hceq : Act.del cf false = Act.del c b := (List.mem_singleton.mp hm).symm
        injection hceq with h1 h2
        refine hc cf ?_ h1
        rw [hsplit]
        exact List.mem_append_right _ (List.mem_cons_self _ _)

/-- Witness for C9: with every delete succeeding on the stale-portal guild,
the primary body's trace decomposes with the category attempt last, and
child 11 is attempted in the prefix. -/
theorem c9_children_attempted_before_category_witness :
    Act.del 11 true ∈ ([Act.del 11 true, Act.del 12 true] : List Act) ∨
    Act.del 11 false ∈ ([Act.del 11 true, Act.del 12 true] : List Act) :=
  (c9_children_attempted_before_category exOracleTrue 10 exG5 (by decide)).1
    [Act.del 11 true, Act.del 12 true] [] true (by rfl) 11 (by decide)

/-- C6: the fallback name-suffix sweep runs exactly when the primary
ownership-based search returned zero categories: with zero primary
matches, deletePortal equals the fallback sweep run from the untouched
state; with at least one primary match, deletePortal equals the primary
sweep alone and the fallback is never attempted. -/
theorem c6_fallback_iff_primary_empty (cfg : Config) (oracle : Nat → Bool)
    (g : GuildState) (m : Member) :
    (findMemberCategories cfg g m = [] →
      deletePortal cfg oracle g m =
        fallbackPhase oracle ((guessCategories cfg g m).map Channel.id) ((g, []) : DState)) ∧
    (findMemberCategories cfg g m ≠ [] →
      deletePortal cfg oracle g m =
        primaryPhase oracle ((findMemberCategories cfg g m).map Channel.id) ((g, []) : DState)) := by
  constructor
  · intro hempty
    unfold deletePortal
    rw [hempty]
    rfl
  · intro hne
    unfold deletePortal
    rw [primaryPhase_ok, except_bind_ok]
    have hfalse : ((findMemberCategories cfg g m).map Channel.id).isEmpty = false := by
      rcases hq : findMemberCategories cfg g m with _ | ⟨a, l⟩
      · exact absurd hq hne
      · rfl
    rw [hfalse]
    simp

/-- Witness for C6: on the stale-portal guild the primary search is empty
and deletePortal equals the fallback sweep; on the owned-portal guild the
primary search is non-empty and deletePortal equals the primary sweep. -/
theorem c6_fallback_iff_primary_empty_witness :
    deletePortal exCfg exOracleTrue exG5 exM =
      fallbackPhase exOracleTrue ((guessCategories exCfg exG5 exM).map Channel.id)
        ((exG5, []) : DState) ∧
    deletePortal exCfg exOracleTrue exG6 exM =
      primaryPhase exOracleTrue ((findMemberCategories exCfg exG6 exM).map Channel.id)
        ((exG6, []) : DState) :=
  ⟨(c6_fallback_iff_primary_empty exCfg exOracleTrue exG5 exM).1 (by rfl),
   (c6_fallback_iff_primary_empty exCfg exOracleTrue exG6 exM).2 (by decide)⟩

/-- C7: when the configured channel list trims to empty, ensurePortal
throws the configuration error before any write (the state is untouched),
and the join handler catches it, leaves the guild unchanged and sends no
welcome message. -/
theorem c7_empty_channel_list (cfg : Config) (g : GuildState) (m : Member)
    (h : channelNamesOf cfg = []) :
    ensurePortal cfg m g = Except.error channelNamesEmptyMsg ∧
    onGuildMemberAdd cfg g m = (g, none) := by
  have hempty : (channelNamesOf cfg).isEmpty = true := by
    rw [h]
    rfl
  have h1 : ensurePortal cfg m g = Except.error channelNamesEmptyMsg := by
    simp only [ensurePortal]
    rw [hempty]
    rfl
  refine ⟨h1, ?_⟩
  unfold onGuildMemberAdd
  rw [h1]

/-- Witness for C7: the configuration whose channel list is made of
whitespace and commas only. -/
theorem c7_empty_channel_list_witness :
    ensurePortal exCfgEmpty exM exG0 = Except.error channelNamesEmptyMsg ∧
    onGuildMemberAdd exCfgEmpty exG0 exM = (exG0, none) :=
  c7_empty_channel_list exCfgEmpty exG0 exM (by rfl)

/-- C8 counterexample: the sequence ensurePortal iterates over is not
deduplicated: with CHANNEL_NAMES set to a comma-separated pair of equal
names, the iterated list holds the name twice. -/
theorem c8_channel_list_counterexample :
    channelNamesOf exCfgDup = [exAName, exAName] ∧
    ¬ (channelNamesOf exCfgDup).Nodup ∧
    channelNamesOf exCfgDup ≠ (channelNamesOf exCfgDup).dedup := by
  refine ⟨by rfl, by decide, by decide⟩

/-- C8 (amended): the iterated sequence is the configured list split on
commas, trimmed and stripped of empty entries, without deduplication;
nevertheless the per-name existence check sees channels created earlier in
the same call, so the number of text channels of a given name under the
category after the loop is its previous count when positive, and otherwise
one exactly when the name occurs (once or more) in the sequence. -/
theorem c8_channel_names_trim_filter_one_creation (cfg : Config) (ow : List Overwrite)
    (c : Nat) (g : GuildState) (nm : String) :
    channelNamesOf cfg =
      ((jsSplit ',' cfg.channelNames).map jsTrim).filter (fun s => !(s == String.mk [])) ∧
    countTextMatching (ensureChannels ow c (channelNamesOf cfg) g).channels c nm =
      (if 0 < countTextMatching g.channels c nm then countTextMatching g.channels c nm
       else if nm ∈ channelNamesOf cfg then 1 else 0) :=
  ⟨rfl, ensureChannels_count ow c (channelNamesOf cfg) g nm⟩

theorem strStartsWith_append (a b : String) : strStartsWith (a ++ b) a = true := by
  unfold strStartsWith
  rw [show (a ++ b).data = a.data ++ b.data from rfl, List.isPrefixOf_iff_prefix]
  exact List.prefix_append a.data b.data

theorem categoryNameFor_startsWith (cfg : Config) (m : Member) :
    strStartsWith (categoryNameFor cfg m) cfg.categoryPrefix = true := by
  unfold categoryNameFor strStartsWith
  rw [show (cfg.categoryPrefix ++ sanitizeName m.username ++ dash ++ last4 m.id).data =
    cfg.categoryPrefix.data ++ (sanitizeName m.username).data ++ dash.data ++
      (last4 m.id).data from rfl]
  rw [List.append_assoc, List.append_assoc, List.isPrefixOf_iff_prefix]
  exact List.prefix_append _ _

theorem overwritesFor_mem_member (cfg : Config) (g : GuildState) (m : Member) :
    Overwrite.mk m.id memberAllowPerms [] ∈ overwritesFor cfg g m := by
  simp only [overwritesFor]
  split <;> simp

theorem overwritesFor_any_principal (cfg : Config) (g : GuildState) (m : Member)
    (mid : String) (hid : mid = m.id) :
    (overwritesFor cfg g m).any (fun ow => ow.principal == mid) = true := by
  rw [List.any_eq_true]
  refine ⟨Overwrite.mk m.id memberAllowPerms [], overwritesFor_mem_member cfg g m, ?_⟩
  rw [hid]
  simp

/-- C10: a category returned by a successful ensurePortal call carries a
name starting with the configured prefix and an overwrite for the member
id, so the primary ownership-based search of deletePortal finds it for any
later member object with the same id (a changed username included). -/
theorem c10_provisioned_portal_found_by_primary (cfg : Config) (m mLater : Member)
    (g g1 : GuildState) (c : Nat)
    (hid : mLater.id = m.id)
    (h1 : ensurePortal cfg m g = Except.ok (g1, c)) :
    c ∈ (findMemberCategories cfg g1 mLater).map Channel.id := by
  have hne : (channelNamesOf cfg).isEmpty = false := by
    cases hi : (channelNamesOf cfg).isEmpty
    · rfl
    · simp only [ensurePortal] at h1
      rw [hi] at h1
      simp at h1
  cases hfind : g.channels.find? (isCatMatch (categoryNameFor cfg m)) with
  | none =>
    rw [ensurePortal_create cfg m g hne hfind] at h1
    simp only [Except.ok.injEq, Prod.mk.injEq] at h1
    obtain ⟨hg1, hc⟩ := h1
    subst hc
    subst hg1
    obtain ⟨added, haddeq, haddprop⟩ := ensureChannels_append (overwritesFor cfg g m) g.nextId
      (channelNamesOf cfg)
      (createChannel g ChanType.category (categoryNameFor cfg m) none (overwritesFor cfg g m)).1
    rw [List.mem_map]
    refine ⟨Channel.mk g.nextId ChanType.category (categoryNameFor cfg m) none
      (overwritesFor cfg g m), ?_, rfl⟩
    unfold findMemberCategories
    rw [List.mem_filter]
    constructor
    · rw [haddeq]
      apply List.mem_append_left
      rw [show (createChannel g ChanType.category (categoryNameFor cfg m) none
        (overwritesFor cfg g m)).1.channels = g.channels ++
          [Channel.mk g.nextId ChanType.category (categoryNameFor cfg m) none
            (overwritesFor cfg g m)] from rfl]
      exact List.mem_append_right _ (List.mem_cons_self _ _)
    · simp only [Bool.and_eq_true, beq_iff_eq]
      exact ⟨⟨trivial, categoryNameFor_startsWith cfg m⟩,
        overwritesFor_any_principal cfg g m mLater.id hid⟩
  | some cat =>
    rw [ensurePortal_reuse cfg m g cat hne hfind] at h1
    simp only [Except.ok.injEq, Prod.mk.injEq] at h1
    obtain ⟨hg1, hc⟩ := h1
    subst hc
    subst hg1
    have hcatmem : cat ∈ g.channels := List.mem_of_find?_eq_some hfind
    have hcatmatch := List.find?_some hfind
    simp only [isCatMatch, Bool.and_eq_true, beq_iff_eq] at hcatmatch
    obtain ⟨added, haddeq, haddprop⟩ := ensureChannels_append (overwritesFor cfg g m) cat.id
      (channelNamesOf cfg) (setOverwrites g cat.id (overwritesFor cfg g m))
    rw [List.mem_map]
    refine ⟨{ cat with overwrites := overwritesFor cfg g m }, ?_, rfl⟩
    unfold findMemberCategories
    rw [List.mem_filter]
    constructor
    · rw [haddeq]
      apply List.mem_append_left
      unfold setOverwrites
      have hfc : ({ cat with overwrites := overwritesFor cfg g m } : Channel) =
          (fun ch => if ch.id = cat.id then { ch with overwrites := overwritesFor cfg g m }
            else ch) cat := by
        simp
      rw [hfc]
      exact List.mem_map_of_mem _ hcatmem
    · simp only [Bool.and_eq_true, beq_iff_eq]
      refine ⟨⟨hcatmatch.1, ?_⟩, overwritesFor_any_principal cfg g m mLater.id hid⟩
      rw [show ({ cat with overwrites := overwritesFor cfg g m } : Channel).name = cat.name
        from rfl, hcatmatch.2]
      exact categoryNameFor_startsWith cfg m

/-- Witness for C10: the portal provisioned for the example member is found
by the primary ownership search even after the username changed. -/
theorem c10_provisioned_portal_found_by_primary_witness :
    (0 : Nat) ∈ (findMemberCategories exCfg exG1 exM2).map Channel.id :=
  c10_provisioned_portal_found_by_primary exCfg exM exM2 exG0 exG1 0 (by rfl) (by rfl)
